import Mathlib

/-!
Shallow embedding of `mst.py` (bskinn/mst): staged scraping of conference
symposium/talk data into a document store, with resumable phases.

Documents of the store are modelled as association lists from string keys to
string values (`Doc`); the network is modelled as an oracle (`Site`) giving,
per URL, the anchors respectively table cells of the fetched page, with
`none` standing for a transport failure surviving the retry wrapper.
Raised exceptions are modelled by the `ok := false` outcome of a phase
(`PhaseOut`), which keeps the table state reached so far, as the real store
keeps already-performed inserts when an exception propagates.
-/

namespace Mst

/-- Python string containment `needle in hay`: `isPrefixL` is list prefix. -/
def isPrefixL : List Char → List Char → Bool
  | [], _ => true
  | _ :: _, [] => false
  | a :: as, b :: bs => a = b && isPrefixL as bs

/-- Python `needle in hay` (contiguous substring, empty needle matches). -/
def containsSub : List Char → List Char → Bool
  | n, [] => n.isEmpty
  | n, h :: t => isPrefixL n (h :: t) || containsSub n t

/-- Python `s.endswith(suf)`. -/
def isSuffixL (suf l : List Char) : Bool :=
  isPrefixL suf.reverse l.reverse

/-- Python slice `l[-n:]` (whole list when shorter than `n`). -/
def lastN (n : Nat) (l : List Char) : List Char :=
  l.drop (l.length - n)

/-- `mst.KEY_SYMP_NAME`. -/
def KEY_SYMP_NAME : String := "symp_name"

/-- `mst.KEY_SYMP_URL`. -/
def KEY_SYMP_URL : String := "symp_url"

/-- `mst.KEY_PREZ_NAME`. -/
def KEY_PREZ_NAME : String := "prez_name"

/-- `mst.KEY_AUTHORS`. -/
def KEY_AUTHORS : String := "prez_authors"

/-- `mst.KEY_ABSTRACT`. -/
def KEY_ABSTRACT : String := "prez_abstract"

/-- `mst.KEY_PREZ_URL`. -/
def KEY_PREZ_URL : String := "prez_url"

/-- `mst.INDEX_AUTHORS`. -/
def INDEX_AUTHORS : Nat := 10

/-- `mst.INDEX_ABSTRACT`. -/
def INDEX_ABSTRACT : Nat := 14

/-- The literal marker string appearing in the anchor filters. -/
def openDocMarker : String := "OpenDocument"

/-- A stored document: an ordered mapping from string keys to string values
(Python `dict[str, str]`). -/
abbrev Doc := List (String × String)

/-- `d[k]` as an `Option` (`none` models a raised `KeyError` at use sites,
or a failed field lookup in a store query). -/
def getF : Doc → String → Option String
  | [], _ => none
  | (k', v) :: rest, k => if k' = k then some v else getF rest k

/-- Python `dict` update of a single key: replace in place if present,
append otherwise. -/
def setF : Doc → String → String → Doc
  | [], k, v => [(k, v)]
  | (k', v') :: rest, k, v =>
    if k' = k then (k, v) :: rest else (k', v') :: setF rest k v

/-- TinyDB `Query().<k> == v`: field present and equal. -/
def qEq (k v : String) (d : Doc) : Bool :=
  decide (getF d k = some v)

/-- TinyDB `Query().symp_name.search(".")`: the `symp_name` field is
present and `re.search(".", value)` succeeds, i.e. the value holds at
least one non-newline character. -/
def qSearchDot (d : Doc) : Bool :=
  match getF d KEY_SYMP_NAME with
  | some v => v.data.any (fun c => decide (c ≠ '\n'))
  | none => false

/-- An anchor (`<a>` tag) of a fetched page: display text and href. -/
structure Anchor where
  text : String
  href : String
deriving DecidableEq

/-- A table cell (`<td>` tag) of a fetched page: whether it contains an
anchor (`td.a is not None`), and its text. -/
structure Cell where
  hasAnchor : Bool
  text : String
deriving DecidableEq

/-- The network, as an oracle: anchors and table cells of the page at each
URL. `none` models a transport failure that exhausts the retry wrapper
and is re-raised by the fetch helper. -/
structure Site where
  anchorsAt : String → Option (List Anchor)
  cellsAt : String → Option (List Cell)

/-- `mst.get_symposia_anchors`: anchors whose href ends with the last 8
characters of the source URL itself and contains the marker. -/
def get_symposia_anchors (site : Site) (url : String) : Option (List Anchor) :=
  (site.anchorsAt url).map (fun as =>
    as.filter (fun a =>
      isSuffixL (lastN 8 url.data) a.href.data &&
        containsSub openDocMarker.data a.href.data))

/-- `mst.get_prez_anchors`: anchors whose href ends with the marker. -/
def get_prez_anchors (site : Site) (url : String) : Option (List Anchor) :=
  (site.anchorsAt url).map (fun as =>
    as.filter (fun a => isSuffixL openDocMarker.data a.href.data))

/-- `mst.get_prez_data`: keep the cells that contain no anchor, then read
the cells at the two fixed indices; `none` models the raised exception
(transport failure, or `IndexError` when too few cells remain). -/
def get_prez_data (site : Site) (url : String) : Option (String × String) :=
  match site.cellsAt url with
  | none => none
  | some cells =>
    let tds := cells.filter (fun c => !c.hasAnchor)
    match tds.get? INDEX_AUTHORS, tds.get? INDEX_ABSTRACT with
    | some a, some b => some (a.text, b.text)
    | _, _ => none

/-- The tail of the regex `(https?://[^/]+)/` after the scheme letters:
`pre` holds the already-matched scheme characters; expects `"://"`, then a
nonempty run of non-slash characters, then a slash; returns group 1. -/
def matchTail (pre cs : List Char) : Option (List Char) :=
  match cs with
  | ':' :: '/' :: '/' :: rest =>
    match rest.dropWhile (fun c => decide (c ≠ '/')) with
    | '/' :: _ =>
      if (rest.takeWhile (fun c => decide (c ≠ '/'))).isEmpty then none
      else some (pre ++ ':' :: '/' :: '/' :: rest.takeWhile (fun c => decide (c ≠ '/')))
    | _ => none
  | _ => none

/-- `mst.get_url_root`: `re.match` of `(https?://[^/]+)/` (case-insensitive
on the scheme letters), returning group 1; `none` models the raised
`RootURLExtractError`. -/
def get_url_root (url : String) : Option String :=
  match url.data with
  | h :: t :: t2 :: p :: rest =>
    if h.toLower = 'h' ∧ t.toLower = 't' ∧ t2.toLower = 't' ∧ p.toLower = 'p' then
      match rest with
      | [] => none
      | s :: rest2 =>
        if s.toLower = 's' then
          (matchTail [h, t, t2, p, s] rest2).map (fun g => { data := g })
        else
          (matchTail [h, t, t2, p] rest).map (fun g => { data := g })
    else none
  | _ => none

/-- Modelled from the spec (section 4.1): the `scheme://host/rest` shape the
spec says `get_url_root` accepts, stated independently of the code's
regex: a scheme spelling `http` or `https` up to letter case, `"://"`, a
nonempty host free of path separators, a separator, and an arbitrary rest. -/
def specShape (url : String) : Prop :=
  ∃ sch host rest : List Char,
    url.data = sch ++ ':' :: '/' :: '/' :: (host ++ '/' :: rest) ∧
    (sch.map Char.toLower = ['h', 't', 't', 'p'] ∨
      sch.map Char.toLower = ['h', 't', 't', 'p', 's']) ∧
    host ≠ [] ∧ ∀ c ∈ host, c ≠ '/'

/-- TinyDB `Query().prez_abstract.matches(".{101}")`, i.e.
`re.match(".{101}", s)`: at least 101 leading characters, none of the
first 101 being a newline (`.` does not match a newline). -/
def matchesAbstractQuery (s : String) : Bool :=
  decide (101 ≤ s.length) && (s.data.take 101).all (fun c => decide (c ≠ '\n'))

/-- TinyDB `Query().prez_authors.matches("^.{0,10}$")`, i.e.
`re.match("^.{0,10}$", s)`: after discarding one trailing newline (which
`$` permits), at most 10 characters, none a newline. -/
def matchesAuthorsQuery (s : String) : Bool :=
  let t := if s.data.getLast? = some '\n' then s.data.dropLast else s.data
  decide (t.length ≤ 10) && t.all (fun c => decide (c ≠ '\n'))

/-- The search predicate of `mst.check_data`: abstract matches `.{101}` or
authors matches `^.{0,10}$` (a missing field fails the query). -/
def checkSelect (d : Doc) : Bool :=
  (match getF d KEY_ABSTRACT with
   | some v => matchesAbstractQuery v
   | none => false) ||
  (match getF d KEY_AUTHORS with
   | some v => matchesAuthorsQuery v
   | none => false)

/-- `mst.check_data`: the records of the default table selected for
printing; the store is not modified. -/
def check_data (tbl : List Doc) : List Doc :=
  tbl.filter checkSelect

/-- One verbose progress line, abstracted to which print statement fired
and the value it displayed. -/
inductive Log where
  | found (name : String)
  | skipMarked (name : String)
  | skipPresent (name : String)
  | starting (name : String)
  | talk (name : String)
  | doneSym (name : String)
  | skipUrlMarked (url : String)
  | skipNameMarked (name : String)
  | processing (name : String)
  | okMsg
  | erroredMsg
deriving DecidableEq

/-- Emit logs only under the verbosity flag. -/
def emit (v : Bool) (ls : List Log) : List Log :=
  if v then ls else []

/-- Outcome of a phase (or of one loop iteration): the table written to,
the progress lines printed, and whether execution completed without an
exception; on `ok := false` the table holds the inserts performed before
the exception was raised. -/
structure PhaseOut where
  tbl : List Doc
  log : List Log
  ok : Bool
deriving DecidableEq

/-- `mst.scrape_symposia`: resolve the root of the meeting URL, then insert
one `{symp_name, symp_url}` row per symposium anchor. -/
def scrape_symposia (site : Site) (v : Bool) (url : String) (tbl : List Doc) :
    PhaseOut :=
  match get_url_root url with
  | none => { tbl := tbl, log := [], ok := false }
  | some root =>
    match get_symposia_anchors site url with
    | none => { tbl := tbl, log := [], ok := false }
    | some as =>
      { tbl := tbl ++ as.map (fun a => [(KEY_SYMP_NAME, a.text), (KEY_SYMP_URL, root ++ a.href)])
        log := emit v (as.map (fun a => Log.found a.text))
        ok := true }

/-- The `symp_name` value of a row already selected by the
`symp_name.search(".")` query (which guarantees the field is present). -/
def rowName (d : Doc) : String :=
  (getF d KEY_SYMP_NAME).getD ("")

/-- Body of the `retrieve_talks` loop for one symposium row `d` (already
selected by the `symp_name.search(".")` query), with the row's
`symp_name` value passed as `name`, acting on the talk-link table
`prez`. -/
def rtStepName (skips : List String) (site : Site) (v : Bool) (prez : List Doc)
    (d : Doc) (name : String) : PhaseOut :=
  match getF d KEY_SYMP_URL with
  | none => { tbl := prez, log := [], ok := false }
  | some url =>
    if skips.any (fun s => containsSub s.data name.data) then
      { tbl := prez
        log := emit v (skips.filterMap (fun s =>
          if containsSub s.data name.data then some (Log.skipMarked name) else none))
        ok := true }
    else if prez.any (qEq KEY_SYMP_NAME name) then
      { tbl := prez, log := emit v [Log.skipPresent name], ok := true }
    else
      match get_url_root url with
      | none => { tbl := prez, log := emit v [Log.starting name], ok := false }
      | some root =>
        match get_prez_anchors site url with
        | none => { tbl := prez, log := emit v [Log.starting name], ok := false }
        | some anchors =>
          { tbl := prez ++ anchors.map (fun a =>
              [(KEY_PREZ_NAME, a.text), (KEY_PREZ_URL, root ++ a.href),
               (KEY_SYMP_NAME, name), (KEY_SYMP_URL, url)])
            log := emit v (Log.starting name ::
              anchors.map (fun a => Log.talk a.text) ++ [Log.doneSym name])
            ok := true }

/-- Body of the `retrieve_talks` loop for one symposium row `d`. -/
def rtStep (skips : List String) (site : Site) (v : Bool) (prez : List Doc)
    (d : Doc) : PhaseOut :=
  rtStepName skips site v prez d (rowName d)

/-- The `retrieve_talks` loop over the selected symposium rows. -/
def rtLoop (skips : List String) (site : Site) (v : Bool) :
    List Doc → List Doc → PhaseOut
  | [], prez => { tbl := prez, log := [], ok := true }
  | d :: ds, prez =>
    let r := rtStep skips site v prez d
    if r.ok then
      let rest := rtLoop skips site v ds r.tbl
      { tbl := rest.tbl, log := r.log ++ rest.log, ok := rest.ok }
    else
      { tbl := r.tbl, log := r.log, ok := false }

/-- `mst.retrieve_talks`: iterate over the symposium rows selected by
`symp_name.search(".")`, writing into the talk-link table. -/
def retrieve_talks (skips : List String) (site : Site) (v : Bool)
    (symp prez : List Doc) : PhaseOut :=
  rtLoop skips site v (symp.filter qSearchDot) prez

/-- One skip-filter loop of `retrieve_talk_details`: scan the filter list
against the given field of the row; `none` models the `KeyError` raised
when the loop body reads a missing field (the field is only read when the
filter list is nonempty); otherwise, whether some filter matched, plus the
one line printed per matching filter. -/
def skipScan (skips : List String) (field : Option String) (mk : String → Log) :
    Option (Bool × List Log) :=
  match skips with
  | [] => some (false, [])
  | _ :: _ =>
    match field with
    | none => none
    | some u =>
      some (skips.any (fun s => containsSub s.data u.data),
        skips.filterMap (fun s =>
          if containsSub s.data u.data then some (mk u) else none))

/-- The two skip-filter loops of `retrieve_talk_details` for row `d`: the
URL-substring loop over `prez_url`, then the name-substring loop over
`prez_name`; a match in either sets the skip flag. -/
def rdSkip (uskips nskips : List String) (d : Doc) : Option (Bool × List Log) :=
  match skipScan uskips (getF d KEY_PREZ_URL) Log.skipUrlMarked with
  | none => none
  | some (b1, l1) =>
    match skipScan nskips (getF d KEY_PREZ_NAME) Log.skipNameMarked with
    | none => none
    | some (b2, l2) => some (b1 || b2, l1 ++ l2)

/-- The `try` block of `retrieve_talk_details`: read the row's URL and run
`get_prez_data` on it; any failure is an exception caught by the `except`
clause. -/
def rdFetch (site : Site) (d : Doc) : Option (String × String) :=
  match getF d KEY_PREZ_URL with
  | none => none
  | some u => get_prez_data site u

/-- Body of the `retrieve_talk_details` loop for one talk-link row `d`
(already selected by the `symp_name.search(".")` query), acting on the
detail table `data`. -/
def rdStep (uskips nskips : List String) (site : Site) (v : Bool)
    (data : List Doc) (d : Doc) : PhaseOut :=
  match rdSkip uskips nskips d with
  | none => { tbl := data, log := [], ok := false }
  | some (skip, slogs) =>
    if skip then { tbl := data, log := emit v slogs, ok := true }
    else
      match getF d KEY_PREZ_NAME with
      | none => { tbl := data, log := emit v slogs, ok := false }
      | some pn =>
        match getF d KEY_SYMP_NAME with
        | none => { tbl := data, log := emit v slogs, ok := false }
        | some sn =>
          if data.any (fun r => qEq KEY_PREZ_NAME pn r && qEq KEY_SYMP_NAME sn r) then
            { tbl := data, log := emit v (slogs ++ [Log.skipPresent pn]), ok := true }
          else
            match rdFetch site d with
            | some (au, ab) =>
              { tbl := data ++ [setF (setF d KEY_AUTHORS au) KEY_ABSTRACT ab]
                log := emit v (slogs ++ [Log.processing pn, Log.okMsg])
                ok := true }
            | none =>
              { tbl := data ++ [setF (setF d KEY_AUTHORS ("N/A")) KEY_ABSTRACT ("N/A")]
                log := emit v (slogs ++ [Log.processing pn, Log.erroredMsg])
                ok := true }

/-- The `retrieve_talk_details` loop over the selected talk-link rows. -/
def rdLoop (uskips nskips : List String) (site : Site) (v : Bool) :
    List Doc → List Doc → PhaseOut
  | [], data => { tbl := data, log := [], ok := true }
  | d :: ds, data =>
    let r := rdStep uskips nskips site v data d
    if r.ok then
      let rest := rdLoop uskips nskips site v ds r.tbl
      { tbl := rest.tbl, log := r.log ++ rest.log, ok := rest.ok }
    else
      { tbl := r.tbl, log := r.log, ok := false }

/-- `mst.retrieve_talk_details`: iterate over the talk-link rows selected by
`symp_name.search(".")`, writing into the detail table. -/
def retrieve_talk_details (uskips nskips : List String) (site : Site)
    (v : Bool) (prez data : List Doc) : PhaseOut :=
  rdLoop uskips nskips site v (prez.filter qSearchDot) data

/-- A site on which every fetch fails. -/
def failSite : Site :=
  { anchorsAt := fun _ => none, cellsAt := fun _ => none }

/-- A sample talk-link row. -/
def sampleTalk : Doc :=
  [(KEY_SYMP_NAME, "S"), (KEY_PREZ_NAME, "T"), (KEY_PREZ_URL, "http://h/t?OpenDocument")]

/-- A sample symposium row. -/
def sampleSymp : Doc :=
  [(KEY_SYMP_NAME, "S"), (KEY_SYMP_URL, "http://h/s?x")]

/-- A site whose symposium page carries exactly one talk anchor. -/
def oneTalkSite : Site :=
  { anchorsAt := fun u =>
      if u = "http://h/s?x" then some [{ text := "T", href := "/t?OpenDocument" }] else none
    cellsAt := fun _ => none }

/-- A detail record with a sentinel-short abstract and healthy authors. -/
def cRecord : Doc :=
  [(KEY_PREZ_NAME, "T"), (KEY_AUTHORS, "Alice Smith, Robert Jones"), (KEY_ABSTRACT, "N/A")]

/-- A site whose every page carries 15 anchor-free table cells. -/
def cellSite : Site :=
  { anchorsAt := fun _ => none
    cellsAt := fun _ => some (List.replicate 15 { hasAnchor := false, text := "c" }) }

/-- Two anchors, one carrying the marker. -/
def twoAnchors : List Anchor :=
  [{ text := "A", href := "/a?OpenDocument" }, { text := "B", href := "/b" }]

/-- A site whose every page carries `twoAnchors`. -/
def anchorSite : Site :=
  { anchorsAt := fun _ => some twoAnchors
    cellsAt := fun _ => none }

theorem getF_setF_self (d : Doc) (k v : String) : getF (setF d k v) k = some v := by
  induction d with
  | nil => simp [setF, getF]
  | cons p rest ih =>
    by_cases h : p.1 = k
    · simp [setF, getF, h]
    · simp [setF, getF, h, ih]

theorem getF_setF_ne (d : Doc) (k v k2 : String) (h : k ≠ k2) :
    getF (setF d k v) k2 = getF d k2 := by
  induction d with
  | nil => simp [setF, getF, h]
  | cons p rest ih =>
    by_cases hp : p.1 = k
    · simp [setF, getF, hp, h]
    · simp only [setF, hp, if_neg]
      by_cases hp2 : p.1 = k2
      · simp [getF, hp2]
      · simp [getF, hp2, ih]

theorem getF_eq_none (d : Doc) (k : String) :
    getF d k = none ↔ k ∉ d.map Prod.fst := by
  induction d with
  | nil => simp [getF]
  | cons p rest ih =>
    by_cases h : p.1 = k
    · simp [getF, h]
    · simp [getF, h, ih, Ne.symm h]

theorem setF_keys (d : Doc) (k v : String) (h : getF d k = none) :
    (setF d k v).map Prod.fst = d.map Prod.fst ++ [k] := by
  induction d with
  | nil => simp [setF]
  | cons p rest ih =>
    by_cases hp : p.1 = k
    · simp [getF, hp] at h
    · simp only [getF, hp, if_neg] at h
      simp [setF, hp, ih h]

/-- C10: both resumable phases run over the rows selected by the
`symp_name.search(".")` query only; a stored row whose `symp_name` field is
absent or empty is never touched by `retrieve_talks` nor by
`retrieve_talk_details` — removing such a row changes neither the table
written, nor the printed lines, nor the raised-exception outcome of either
phase. -/
theorem empty_symp_name_rows_ignored (d : Doc)
    (hd : getF d KEY_SYMP_NAME = none ∨ getF d KEY_SYMP_NAME = some (""))
    (skips uskips nskips : List String) (site : Site) (v : Bool)
    (L1 L2 prez data : List Doc) :
    retrieve_talks skips site v (L1 ++ d :: L2) prez =
        retrieve_talks skips site v (L1 ++ L2) prez ∧
      retrieve_talk_details uskips nskips site v (L1 ++ d :: L2) data =
        retrieve_talk_details uskips nskips site v (L1 ++ L2) data := by
  have hq : qSearchDot d = false := by
    rcases hd with h | h
    · simp [qSearchDot, h]
    · have he : ("" : String).data = [] := rfl
      simp [qSearchDot, h, he]
  constructor
  · simp [retrieve_talks, List.filter_append, List.filter_cons, hq]
  · simp [retrieve_talk_details, List.filter_append, List.filter_cons, hq]

/-- Closed instance of `empty_symp_name_rows_ignored` at a concrete store. -/
theorem empty_symp_name_rows_ignored_witness :
    retrieve_talks [] failSite true ([[(KEY_SYMP_URL, "u")]] ++ [sampleSymp] ++ []) [] =
        retrieve_talks [] failSite true ([sampleSymp] ++ []) [] ∧
      retrieve_talk_details [] [] failSite true ([[(KEY_SYMP_URL, "u")]] ++ [sampleSymp] ++ []) [] =
        retrieve_talk_details [] [] failSite true ([sampleSymp] ++ []) [] := by
  have h := empty_symp_name_rows_ignored [(KEY_SYMP_URL, "u")]
    (Or.inl (by decide)) [] [] [] failSite true [] [sampleSymp] [] []
  simpa using h

/-- C5, code bug: the claim (with the spec) says `check_data` flags exactly
the records whose abstract is shorter than 100 characters or whose
authors text is shorter than 10 characters. The code instead queries
`matches(".{101}")` on the abstract, which selects abstracts at least 101
characters long. On `cRecord` — abstract `"N/A"` (3 characters, well
under 100) and healthy 25-character authors — the claimed behaviour flags
the record, but the code selects nothing. -/
theorem check_data_misses_short_abstract :
    check_data [cRecord] = [] ∧
      getF cRecord KEY_ABSTRACT = some ("N/A") ∧
      getF cRecord KEY_AUTHORS = some ("Alice Smith, Robert Jones") ∧
      ("N/A" : String).length < 100 ∧
      10 ≤ ("Alice Smith, Robert Jones" : String).length := by
  refine ⟨by decide, by decide, by decide, by decide, by decide⟩

/-- C8: the detail extractor keeps the anchor-free cells in document order,
returns the texts of the cells at the fixed authors and abstract indices
of that filtered sequence, and fails whenever the filtered sequence is
shorter than the larger fixed index requires. -/
theorem get_prez_data_spec (site : Site) (url : String) (cells : List Cell)
    (h : site.cellsAt url = some cells) :
    (cells.filter (fun c => !c.hasAnchor)).Sublist cells ∧
      (∀ a b : Cell,
        (cells.filter (fun c => !c.hasAnchor)).get? INDEX_AUTHORS = some a →
        (cells.filter (fun c => !c.hasAnchor)).get? INDEX_ABSTRACT = some b →
        get_prez_data site url = some (a.text, b.text)) ∧
      ((cells.filter (fun c => !c.hasAnchor)).length ≤ INDEX_ABSTRACT →
        get_prez_data site url = none) := by
  refine ⟨List.filter_sublist cells, ?_, ?_⟩
  · intro a b ha hb
    rw [List.get?_eq_getElem?] at ha hb
    simp [get_prez_data, h, ha, hb]
  · intro hlen
    have hb : (cells.filter (fun c => !c.hasAnchor)).get? INDEX_ABSTRACT = none :=
      List.get?_eq_none.mpr hlen
    rw [List.get?_eq_getElem?] at hb
    simp [get_prez_data, h, hb]

/-- Closed instance of `get_prez_data_spec` at a 15-cell page. -/
theorem get_prez_data_spec_witness :
    get_prez_data cellSite ("u") = some ("c", "c") := by
  have h := (get_prez_data_spec cellSite ("u")
    (List.replicate 15 { hasAnchor := false, text := "c" }) rfl).2.1
      { hasAnchor := false, text := "c" } { hasAnchor := false, text := "c" }
  exact h (by decide) (by decide)

/-- C9: on a fetched page, the symposium-mode extractor selects exactly the
anchors whose href ends with the trailing 8 characters of the source URL
and contains the marker; the talk-mode extractor selects exactly those
whose href ends with the marker; both keep markup order (sublist of the
page's anchors) and yield an empty list, not a failure, when nothing
matches. -/
theorem anchor_extractors_spec (site : Site) (url : String) (as : List Anchor)
    (h : site.anchorsAt url = some as) :
    ∃ rs rt : List Anchor,
      get_symposia_anchors site url = some rs ∧
      get_prez_anchors site url = some rt ∧
      rs.Sublist as ∧ rt.Sublist as ∧
      (∀ a : Anchor, a ∈ rs ↔ a ∈ as ∧
        (isSuffixL (lastN 8 url.data) a.href.data = true ∧
          containsSub openDocMarker.data a.href.data = true)) ∧
      (∀ a : Anchor, a ∈ rt ↔ a ∈ as ∧ isSuffixL openDocMarker.data a.href.data = true) ∧
      ((∀ a ∈ as, ¬(isSuffixL (lastN 8 url.data) a.href.data = true ∧
          containsSub openDocMarker.data a.href.data = true)) → rs = []) ∧
      ((∀ a ∈ as, isSuffixL openDocMarker.data a.href.data = false) → rt = []) := by
  refine ⟨as.filter (fun a => isSuffixL (lastN 8 url.data) a.href.data &&
      containsSub openDocMarker.data a.href.data),
    as.filter (fun a => isSuffixL openDocMarker.data a.href.data),
    by simp [get_symposia_anchors, h], by simp [get_prez_anchors, h],
    List.filter_sublist as, List.filter_sublist as, ?_, ?_, ?_, ?_⟩
  · intro a
    simp [List.mem_filter, Bool.and_eq_true]
  · intro a
    simp [List.mem_filter]
  · intro hall
    refine List.filter_eq_nil_iff.mpr (fun a ha => ?_)
    have := hall a ha
    simp only [Bool.and_eq_true]
    tauto
  · intro hall
    refine List.filter_eq_nil_iff.mpr (fun a ha => ?_)
    simp [hall a ha]

/-- Closed instance of `anchor_extractors_spec` at `anchorSite`. -/
theorem anchor_extractors_spec_witness :
    ∃ rs rt : List Anchor,
      get_symposia_anchors anchorSite ("u") = some rs ∧
      get_prez_anchors anchorSite ("u") = some rt ∧
      rs.Sublist twoAnchors ∧ rt.Sublist twoAnchors ∧
      (∀ a : Anchor, a ∈ rs ↔ a ∈ twoAnchors ∧
        (isSuffixL (lastN 8 ("u" : String).data) a.href.data = true ∧
          containsSub openDocMarker.data a.href.data = true)) ∧
      (∀ a : Anchor, a ∈ rt ↔ a ∈ twoAnchors ∧
        isSuffixL openDocMarker.data a.href.data = true) ∧
      ((∀ a ∈ twoAnchors, ¬(isSuffixL (lastN 8 ("u" : String).data) a.href.data = true ∧
          containsSub openDocMarker.data a.href.data = true)) → rs = []) ∧
      ((∀ a ∈ twoAnchors, isSuffixL openDocMarker.data a.href.data = false) → rt = []) :=
  anchor_extractors_spec anchorSite ("u") twoAnchors rfl

/-- C7, counterexample: the single record that `retrieve_talks` inserts for
`sampleSymp` is keyed `prez_name` / `prez_url` / `symp_name` / `symp_url`,
not the `talk_name` / `talk_url` / `symposium_name` / `symposium_url`
names the claim takes from the spec's data model. -/
theorem record_keys_cex :
    (retrieve_talks [] oneTalkSite false [sampleSymp] []).tbl.map
        (fun d => d.map Prod.fst) =
      [[KEY_PREZ_NAME, KEY_PREZ_URL, KEY_SYMP_NAME, KEY_SYMP_URL]] ∧
      [KEY_PREZ_NAME, KEY_PREZ_URL, KEY_SYMP_NAME, KEY_SYMP_URL] ≠
        ["talk_name", "talk_url", "symposium_name", "symposium_url"] := by
  refine ⟨by decide, by decide⟩

theorem getF_talkRowName (x y name u : String) :
    getF [(KEY_PREZ_NAME, x), (KEY_PREZ_URL, y), (KEY_SYMP_NAME, name), (KEY_SYMP_URL, u)]
      KEY_SYMP_NAME = some name := by
  simp only [getF]
  rw [if_neg (by decide), if_neg (by decide)]
  simp

theorem rtStepName_shape (skips : List String) (site : Site) (v : Bool)
    (prez : List Doc) (d : Doc) (name : String) :
    ∃ ext, (rtStepName skips site v prez d name).tbl = prez ++ ext ∧
      ∀ r ∈ ext,
        r.map Prod.fst = [KEY_PREZ_NAME, KEY_PREZ_URL, KEY_SYMP_NAME, KEY_SYMP_URL] ∧
          getF r KEY_SYMP_NAME = some name := by
  unfold rtStepName
  cases hurl : getF d KEY_SYMP_URL with
  | none => exact ⟨[], by simp, by simp⟩
  | some url =>
    by_cases hskip : skips.any (fun s => containsSub s.data name.data) = true
    · exact ⟨[], by simp [hskip], by simp⟩
    · by_cases hpres : prez.any (qEq KEY_SYMP_NAME name) = true
      · exact ⟨[], by simp [hskip, hpres], by simp⟩
      · cases hroot : get_url_root url with
        | none => exact ⟨[], by simp [hskip, hpres, hroot], by simp⟩
        | some root =>
          cases hanch : get_prez_anchors site url with
          | none => exact ⟨[], by simp [hskip, hpres, hroot, hanch], by simp⟩
          | some anchors =>
            refine ⟨anchors.map (fun a =>
              [(KEY_PREZ_NAME, a.text), (KEY_PREZ_URL, root ++ a.href),
               (KEY_SYMP_NAME, name), (KEY_SYMP_URL, url)]),
              by simp [hskip, hpres, hroot, hanch], ?_⟩
            intro r hr
            simp only [List.mem_map] at hr
            obtain ⟨a, -, rfl⟩ := hr
            exact ⟨by simp, getF_talkRowName _ _ _ _⟩

theorem rtStep_shape (skips : List String) (site : Site) (v : Bool)
    (prez : List Doc) (d : Doc) :
    ∃ ext, (rtStep skips site v prez d).tbl = prez ++ ext ∧
      ∀ r ∈ ext,
        r.map Prod.fst = [KEY_PREZ_NAME, KEY_PREZ_URL, KEY_SYMP_NAME, KEY_SYMP_URL] ∧
          getF r KEY_SYMP_NAME = some (rowName d) :=
  rtStepName_shape skips site v prez d (rowName d)

theorem rtLoop_shape (skips : List String) (site : Site) (v : Bool) :
    ∀ (L : List Doc) (prez : List Doc),
      ∃ ext, (rtLoop skips site v L prez).tbl = prez ++ ext ∧
        ∀ r ∈ ext,
          r.map Prod.fst = [KEY_PREZ_NAME, KEY_PREZ_URL, KEY_SYMP_NAME, KEY_SYMP_URL] := by
  intro L
  induction L with
  | nil => exact fun prez => ⟨[], by simp [rtLoop], by simp⟩
  | cons d ds ih =>
    intro prez
    obtain ⟨e1, he1, hk1⟩ := rtStep_shape skips site v prez d
    by_cases hok : (rtStep skips site v prez d).ok = true
    · obtain ⟨e2, he2, hk2⟩ := ih (rtStep skips site v prez d).tbl
      rw [he1] at he2
      refine ⟨e1 ++ e2, ?_, ?_⟩
      · simp only [rtLoop, hok, if_true]
        rw [he1, he2, List.append_assoc]
      · intro r hr
        rcases List.mem_append.mp hr with h | h
        · exact (hk1 r h).1
        · exact hk2 r h
    · refine ⟨e1, ?_, fun r hr => (hk1 r hr).1⟩
      simp only [rtLoop, hok]
      simp [he1]

theorem rtStepName_eq_url_none (skips : List String) (site : Site) (v : Bool)
    (prez : List Doc) (d : Doc) (name : String)
    (h : getF d KEY_SYMP_URL = none) :
    rtStepName skips site v prez d name = { tbl := prez, log := [], ok := false } := by
  unfold rtStepName
  rw [h]

theorem rtStepName_eq_skip (skips : List String) (site : Site) (v : Bool)
    (prez : List Doc) (d : Doc) (name url : String)
    (h1 : getF d KEY_SYMP_URL = some url)
    (h2 : skips.any (fun s => containsSub s.data name.data) = true) :
    rtStepName skips site v prez d name =
      { tbl := prez
        log := emit v (skips.filterMap (fun s =>
          if containsSub s.data name.data then some (Log.skipMarked name) else none))
        ok := true } := by
  unfold rtStepName
  rw [h1]
  simp [h2]

theorem rtStepName_eq_present (skips : List String) (site : Site) (v : Bool)
    (prez : List Doc) (d : Doc) (name url : String)
    (h1 : getF d KEY_SYMP_URL = some url)
    (h2 : skips.any (fun s => containsSub s.data name.data) = false)
    (h3 : prez.any (qEq KEY_SYMP_NAME name) = true) :
    rtStepName skips site v prez d name =
      { tbl := prez, log := emit v [Log.skipPresent name], ok := true } := by
  unfold rtStepName
  rw [h1]
  simp [h2, h3]

theorem rtStepName_eq_root_err (skips : List String) (site : Site) (v : Bool)
    (prez : List Doc) (d : Doc) (name url : String)
    (h1 : getF d KEY_SYMP_URL = some url)
    (h2 : skips.any (fun s => containsSub s.data name.data) = false)
    (h3 : prez.any (qEq KEY_SYMP_NAME name) = false)
    (h4 : get_url_root url = none) :
    rtStepName skips site v prez d name =
      { tbl := prez, log := emit v [Log.starting name], ok := false } := by
  unfold rtStepName
  rw [h1]
  simp [h2, h3, h4]

theorem rtStepName_eq_anch_err (skips : List String) (site : Site) (v : Bool)
    (prez : List Doc) (d : Doc) (name url root : String)
    (h1 : getF d KEY_SYMP_URL = some url)
    (h2 : skips.any (fun s => containsSub s.data name.data) = false)
    (h3 : prez.any (qEq KEY_SYMP_NAME name) = false)
    (h4 : get_url_root url = some root)
    (h5 : get_prez_anchors site url = none) :
    rtStepName skips site v prez d name =
      { tbl := prez, log := emit v [Log.starting name], ok := false } := by
  unfold rtStepName
  rw [h1]
  simp [h2, h3, h4, h5]

theorem rtStepName_eq_proc (skips : List String) (site : Site) (v : Bool)
    (prez : List Doc) (d : Doc) (name url root : String) (anchors : List Anchor)
    (h1 : getF d KEY_SYMP_URL = some url)
    (h2 : skips.any (fun s => containsSub s.data name.data) = false)
    (h3 : prez.any (qEq KEY_SYMP_NAME name) = false)
    (h4 : get_url_root url = some root)
    (h5 : get_prez_anchors site url = some anchors) :
    rtStepName skips site v prez d name =
      { tbl := prez ++ anchors.map (fun a =>
          [(KEY_PREZ_NAME, a.text), (KEY_PREZ_URL, root ++ a.href),
           (KEY_SYMP_NAME, name), (KEY_SYMP_URL, url)])
        log := emit v (Log.starting name ::
          anchors.map (fun a => Log.talk a.text) ++ [Log.doneSym name])
        ok := true } := by
  unfold rtStepName
  rw [h1]
  simp [h2, h3, h4, h5]

theorem rtStep_second (skips : List String) (site : Site) (v : Bool)
    (prez p1 : List Doc) (lg1 : List Log) (d : Doc)
    (h : rtStep skips site v prez d = { tbl := p1, log := lg1, ok := true })
    (ext : List Doc) :
    ∃ lg2, rtStep skips site v (p1 ++ ext) d =
      { tbl := p1 ++ ext, log := lg2, ok := true } := by
  unfold rtStep at h ⊢
  cases hurl : getF d KEY_SYMP_URL with
  | none =>
    rw [rtStepName_eq_url_none skips site v prez d (rowName d) hurl,
      PhaseOut.mk.injEq] at h
    simp at h
  | some url =>
    by_cases hskip : skips.any (fun s => containsSub s.data (rowName d).data) = true
    · rw [rtStepName_eq_skip skips site v prez d (rowName d) url hurl hskip,
        PhaseOut.mk.injEq] at h
      obtain ⟨rfl, -, -⟩ := h
      exact ⟨_, rtStepName_eq_skip skips site v (prez ++ ext) d (rowName d) url hurl hskip⟩
    · rw [Bool.not_eq_true] at hskip
      by_cases hpres : prez.any (qEq KEY_SYMP_NAME (rowName d)) = true
      · rw [rtStepName_eq_present skips site v prez d (rowName d) url hurl hskip hpres,
          PhaseOut.mk.injEq] at h
        obtain ⟨rfl, -, -⟩ := h
        have hp2 : (prez ++ ext).any (qEq KEY_SYMP_NAME (rowName d)) = true := by
          rw [List.any_append, hpres, Bool.true_or]
        exact ⟨_, rtStepName_eq_present skips site v (prez ++ ext) d (rowName d) url
          hurl hskip hp2⟩
      · rw [Bool.not_eq_true] at hpres
        cases hroot : get_url_root url with
        | none =>
          rw [rtStepName_eq_root_err skips site v prez d (rowName d) url hurl hskip
            hpres hroot, PhaseOut.mk.injEq] at h
          simp at h
        | some root =>
          cases hanch : get_prez_anchors site url with
          | none =>
            rw [rtStepName_eq_anch_err skips site v prez d (rowName d) url root hurl
              hskip hpres hroot hanch, PhaseOut.mk.injEq] at h
            simp at h
          | some anchors =>
            rw [rtStepName_eq_proc skips site v prez d (rowName d) url root anchors
              hurl hskip hpres hroot hanch, PhaseOut.mk.injEq] at h
            obtain ⟨htbl, -, -⟩ := h
            cases anchors with
            | nil =>
              rw [List.map_nil, List.append_nil] at htbl
              subst htbl
              by_cases hp2 : (prez ++ ext).any (qEq KEY_SYMP_NAME (rowName d)) = true
              · exact ⟨_, rtStepName_eq_present skips site v (prez ++ ext) d (rowName d)
                  url hurl hskip hp2⟩
              · rw [Bool.not_eq_true] at hp2
                refine ⟨emit v [Log.starting (rowName d), Log.doneSym (rowName d)], ?_⟩
                rw [rtStepName_eq_proc skips site v (prez ++ ext) d (rowName d) url root
                  [] hurl hskip hp2 hroot hanch]
                simp
            | cons a as =>
              have hmem : [(KEY_PREZ_NAME, a.text), (KEY_PREZ_URL, root ++ a.href),
                  (KEY_SYMP_NAME, rowName d), (KEY_SYMP_URL, url)] ∈ p1 ++ ext := by
                refine List.mem_append_left _ ?_
                rw [← htbl]
                refine List.mem_append_right _ ?_
                simp
              have hp2 : (p1 ++ ext).any (qEq KEY_SYMP_NAME (rowName d)) = true := by
                refine List.any_eq_true.mpr ⟨_, hmem, ?_⟩
                simp [qEq, getF_talkRowName]
              exact ⟨_, rtStepName_eq_present skips site v (p1 ++ ext) d (rowName d) url
                hurl hskip hp2⟩

theorem rtLoop_cons_ok (skips : List String) (site : Site) (v : Bool)
    (prez t1 : List Doc) (l1 : List Log) (d : Doc) (ds : List Doc)
    (h : rtStep skips site v prez d = { tbl := t1, log := l1, ok := true }) :
    rtLoop skips site v (d :: ds) prez =
      { tbl := (rtLoop skips site v ds t1).tbl
        log := l1 ++ (rtLoop skips site v ds t1).log
        ok := (rtLoop skips site v ds t1).ok } := by
  simp [rtLoop, h]

theorem rtLoop_cons_err (skips : List String) (site : Site) (v : Bool)
    (prez t1 : List Doc) (l1 : List Log) (d : Doc) (ds : List Doc)
    (h : rtStep skips site v prez d = { tbl := t1, log := l1, ok := false }) :
    rtLoop skips site v (d :: ds) prez = { tbl := t1, log := l1, ok := false } := by
  simp [rtLoop, h]

theorem rtLoop_idem (skips : List String) (site : Site) (v : Bool) :
    ∀ (L prez q : List Doc) (lg : List Log),
      rtLoop skips site v L prez = { tbl := q, log := lg, ok := true } →
      ∃ lg2, rtLoop skips site v L q = { tbl := q, log := lg2, ok := true } := by
  intro L
  induction L with
  | nil =>
    intro prez q lg h
    simp only [rtLoop, PhaseOut.mk.injEq] at h
    obtain ⟨rfl, -, -⟩ := h
    exact ⟨[], rfl⟩
  | cons d ds ih =>
    intro prez q lg h
    rcases hs : rtStep skips site v prez d with ⟨t1, l1, o1⟩
    cases o1 with
    | false =>
      rw [rtLoop_cons_err skips site v prez t1 l1 d ds hs, PhaseOut.mk.injEq] at h
      simp at h
    | true =>
      rw [rtLoop_cons_ok skips site v prez t1 l1 d ds hs, PhaseOut.mk.injEq] at h
      obtain ⟨htbl, -, hok2⟩ := h
      have hloop : rtLoop skips site v ds t1 =
          { tbl := q, log := (rtLoop skips site v ds t1).log, ok := true } := by
        rw [← htbl, ← hok2]
      obtain ⟨lgA, hA⟩ := ih t1 q _ hloop
      obtain ⟨ext2, hext2, -⟩ := rtLoop_shape skips site v ds t1
      have hq : q = t1 ++ ext2 := by rw [← htbl, hext2]
      obtain ⟨lgB, hB⟩ := rtStep_second skips site v prez t1 l1 d hs ext2
      rw [← hq] at hB
      refine ⟨lgB ++ lgA, ?_⟩
      rw [rtLoop_cons_ok skips site v q q lgB d ds hB, hA]

/-- C3: talk-link discovery is idempotent on the talk-link table — if a run
of `retrieve_talks` completes without raising and leaves the talk-link
table in state `q`, then a second run with the same arguments over `q`
also completes and leaves the table exactly at `q` (each symposium is
either skipped as already present, or re-scanned yielding zero talks
again). -/
theorem retrieve_talks_idempotent (skips : List String) (site : Site)
    (v : Bool) (symp prez q : List Doc) (lg : List Log)
    (h : retrieve_talks skips site v symp prez = { tbl := q, log := lg, ok := true }) :
    ∃ lg2, retrieve_talks skips site v symp q = { tbl := q, log := lg2, ok := true } :=
  rtLoop_idem skips site v (symp.filter qSearchDot) prez q lg h

/-- Closed instance of `retrieve_talks_idempotent`: after the one-talk
store has been scanned once, a second run changes nothing. -/
theorem retrieve_talks_idempotent_witness :
    ∃ lg2, retrieve_talks [] oneTalkSite true [sampleSymp]
        [[(KEY_PREZ_NAME, "T"), (KEY_PREZ_URL, "http://h/t?OpenDocument"),
          (KEY_SYMP_NAME, "S"), (KEY_SYMP_URL, "http://h/s?x")]] =
      { tbl := [[(KEY_PREZ_NAME, "T"), (KEY_PREZ_URL, "http://h/t?OpenDocument"),
          (KEY_SYMP_NAME, "S"), (KEY_SYMP_URL, "http://h/s?x")]],
        log := lg2, ok := true } :=
  retrieve_talks_idempotent [] oneTalkSite true [sampleSymp] []
    [[(KEY_PREZ_NAME, "T"), (KEY_PREZ_URL, "http://h/t?OpenDocument"),
      (KEY_SYMP_NAME, "S"), (KEY_SYMP_URL, "http://h/s?x")]]
    [Log.starting ("S"), Log.talk ("T"), Log.doneSym ("S")] (by decide)

theorem skipScan_nil (field : Option String) (mk : String → Log) :
    skipScan [] field mk = some (false, []) := rfl

theorem skipScan_no_match (skips : List String) (u : String) (mk : String → Log)
    (h : ∀ s ∈ skips, containsSub s.data u.data = false) :
    skipScan skips (some u) mk = some (false, []) := by
  cases skips with
  | nil => rfl
  | cons s0 ss =>
    unfold skipScan
    have hany : (s0 :: ss).any (fun s => containsSub s.data u.data) = false := by
      rw [List.any_eq_false]
      intro x hx
      simp [h x hx]
    have hfm : (s0 :: ss).filterMap
        (fun s => if containsSub s.data u.data then some (mk u) else none) = [] := by
      rw [List.filterMap_eq_nil_iff]
      intro x hx
      simp [h x hx]
    simp [hany, hfm]

theorem skipScan_match (skips : List String) (u s0 : String) (mk : String → Log)
    (hmem : s0 ∈ skips) (hc : containsSub s0.data u.data = true) :
    ∃ lgs, skipScan skips (some u) mk = some (true, lgs) := by
  cases skips with
  | nil => cases hmem
  | cons a ss =>
    unfold skipScan
    have hany : (a :: ss).any (fun s => containsSub s.data u.data) = true :=
      List.any_eq_true.mpr ⟨s0, hmem, hc⟩
    exact ⟨(a :: ss).filterMap
        (fun s => if containsSub s.data u.data then some (mk u) else none),
      by simp [hany]⟩

theorem skipScan_some (skips : List String) (u : String) (mk : String → Log) :
    ∃ b lgs, skipScan skips (some u) mk = some (b, lgs) := by
  cases skips with
  | nil => exact ⟨false, [], rfl⟩
  | cons a ss => exact ⟨_, _, rfl⟩

theorem rdSkip_no_match (uskips nskips : List String) (d : Doc) (pu pn : String)
    (hpu : getF d KEY_PREZ_URL = some pu) (hpn : getF d KEY_PREZ_NAME = some pn)
    (hu : ∀ s ∈ uskips, containsSub s.data pu.data = false)
    (hn : ∀ s ∈ nskips, containsSub s.data pn.data = false) :
    rdSkip uskips nskips d = some (false, []) := by
  unfold rdSkip
  rw [hpu, hpn, skipScan_no_match uskips pu Log.skipUrlMarked hu,
    skipScan_no_match nskips pn Log.skipNameMarked hn]
  rfl

theorem rdSkip_match (uskips nskips : List String) (d : Doc) (pu pn : String)
    (hpu : getF d KEY_PREZ_URL = some pu) (hpn : getF d KEY_PREZ_NAME = some pn)
    (hmatch : (∃ s ∈ uskips, containsSub s.data pu.data = true) ∨
      (∃ s ∈ nskips, containsSub s.data pn.data = true)) :
    ∃ lgs, rdSkip uskips nskips d = some (true, lgs) := by
  unfold rdSkip
  rw [hpu, hpn]
  rcases hmatch with ⟨s0, hmem, hc⟩ | ⟨s0, hmem, hc⟩
  · obtain ⟨lgs1, h1⟩ := skipScan_match uskips pu s0 Log.skipUrlMarked hmem hc
    obtain ⟨b2, lgs2, h2⟩ := skipScan_some nskips pn Log.skipNameMarked
    rw [h1, h2]
    exact ⟨lgs1 ++ lgs2, by simp⟩
  · obtain ⟨lgs2, h2⟩ := skipScan_match nskips pn s0 Log.skipNameMarked hmem hc
    obtain ⟨b1, lgs1, h1⟩ := skipScan_some uskips pu Log.skipUrlMarked
    rw [h1, h2]
    exact ⟨lgs1 ++ lgs2, by simp⟩

theorem rdStep_eq_skip_err (uskips nskips : List String) (site : Site) (v : Bool)
    (data : List Doc) (d : Doc)
    (h : rdSkip uskips nskips d = none) :
    rdStep uskips nskips site v data d = { tbl := data, log := [], ok := false } := by
  unfold rdStep
  rw [h]

theorem rdStep_eq_skip (uskips nskips : List String) (site : Site) (v : Bool)
    (data : List Doc) (d : Doc) (lgs : List Log)
    (h : rdSkip uskips nskips d = some (true, lgs)) :
    rdStep uskips nskips site v data d =
      { tbl := data, log := emit v lgs, ok := true } := by
  unfold rdStep
  rw [h]
  simp

theorem rdStep_eq_pn_err (uskips nskips : List String) (site : Site) (v : Bool)
    (data : List Doc) (d : Doc) (lgs : List Log)
    (h : rdSkip uskips nskips d = some (false, lgs))
    (hpn : getF d KEY_PREZ_NAME = none) :
    rdStep uskips nskips site v data d =
      { tbl := data, log := emit v lgs, ok := false } := by
  unfold rdStep
  rw [h]
  simp [hpn]

theorem rdStep_eq_sn_err (uskips nskips : List String) (site : Site) (v : Bool)
    (data : List Doc) (d : Doc) (lgs : List Log) (pn : String)
    (h : rdSkip uskips nskips d = some (false, lgs))
    (hpn : getF d KEY_PREZ_NAME = some pn)
    (hsn : getF d KEY_SYMP_NAME = none) :
    rdStep uskips nskips site v data d =
      { tbl := data, log := emit v lgs, ok := false } := by
  unfold rdStep
  rw [h]
  simp [hpn, hsn]

theorem rdStep_eq_present (uskips nskips : List String) (site : Site) (v : Bool)
    (data : List Doc) (d : Doc) (lgs : List Log) (pn sn : String)
    (h : rdSkip uskips nskips d = some (false, lgs))
    (hpn : getF d KEY_PREZ_NAME = some pn)
    (hsn : getF d KEY_SYMP_NAME = some sn)
    (hpres : data.any (fun r => qEq KEY_PREZ_NAME pn r && qEq KEY_SYMP_NAME sn r) = true) :
    rdStep uskips nskips site v data d =
      { tbl := data, log := emit v (lgs ++ [Log.skipPresent pn]), ok := true } := by
  unfold rdStep
  rw [h]
  simp [hpn, hsn, hpres]

theorem rdStep_eq_fetch_ok (uskips nskips : List String) (site : Site) (v : Bool)
    (data : List Doc) (d : Doc) (lgs : List Log) (pn sn au ab : String)
    (h : rdSkip uskips nskips d = some (false, lgs))
    (hpn : getF d KEY_PREZ_NAME = some pn)
    (hsn : getF d KEY_SYMP_NAME = some sn)
    (hpres : data.any (fun r => qEq KEY_PREZ_NAME pn r && qEq KEY_SYMP_NAME sn r) = false)
    (hf : rdFetch site d = some (au, ab)) :
    rdStep uskips nskips site v data d =
      { tbl := data ++ [setF (setF d KEY_AUTHORS au) KEY_ABSTRACT ab]
        log := emit v (lgs ++ [Log.processing pn, Log.okMsg])
        ok := true } := by
  unfold rdStep
  rw [h]
  simp [hpn, hsn, hpres, hf]

theorem rdStep_eq_fetch_err (uskips nskips : List String) (site : Site) (v : Bool)
    (data : List Doc) (d : Doc) (lgs : List Log) (pn sn : String)
    (h : rdSkip uskips nskips d = some (false, lgs))
    (hpn : getF d KEY_PREZ_NAME = some pn)
    (hsn : getF d KEY_SYMP_NAME = some sn)
    (hpres : data.any (fun r => qEq KEY_PREZ_NAME pn r && qEq KEY_SYMP_NAME sn r) = false)
    (hf : rdFetch site d = none) :
    rdStep uskips nskips site v data d =
      { tbl := data ++ [setF (setF d KEY_AUTHORS ("N/A")) KEY_ABSTRACT ("N/A")]
        log := emit v (lgs ++ [Log.processing pn, Log.erroredMsg])
        ok := true } := by
  unfold rdStep
  rw [h]
  simp [hpn, hsn, hpres, hf]

theorem rdStep_shape (uskips nskips : List String) (site : Site) (v : Bool)
    (data : List Doc) (d : Doc) :
    ∃ ext, (rdStep uskips nskips site v data d).tbl = data ++ ext ∧
      ∀ r ∈ ext,
        getF r KEY_PREZ_NAME = getF d KEY_PREZ_NAME ∧
          getF r KEY_SYMP_NAME = getF d KEY_SYMP_NAME ∧
          (d.map Prod.fst = [KEY_PREZ_NAME, KEY_PREZ_URL, KEY_SYMP_NAME, KEY_SYMP_URL] →
            r.map Prod.fst = [KEY_PREZ_NAME, KEY_PREZ_URL, KEY_SYMP_NAME, KEY_SYMP_URL,
              KEY_AUTHORS, KEY_ABSTRACT]) := by
  have hrow : ∀ au ab : String,
      getF (setF (setF d KEY_AUTHORS au) KEY_ABSTRACT ab) KEY_PREZ_NAME =
          getF d KEY_PREZ_NAME ∧
        getF (setF (setF d KEY_AUTHORS au) KEY_ABSTRACT ab) KEY_SYMP_NAME =
          getF d KEY_SYMP_NAME ∧
        (d.map Prod.fst = [KEY_PREZ_NAME, KEY_PREZ_URL, KEY_SYMP_NAME, KEY_SYMP_URL] →
          (setF (setF d KEY_AUTHORS au) KEY_ABSTRACT ab).map Prod.fst =
            [KEY_PREZ_NAME, KEY_PREZ_URL, KEY_SYMP_NAME, KEY_SYMP_URL,
              KEY_AUTHORS, KEY_ABSTRACT]) := by
    intro au ab
    refine ⟨?_, ?_, ?_⟩
    · rw [getF_setF_ne _ _ _ _ (by decide), getF_setF_ne _ _ _ _ (by decide)]
    · rw [getF_setF_ne _ _ _ _ (by decide), getF_setF_ne _ _ _ _ (by decide)]
    · intro h4
      have hA : getF d KEY_AUTHORS = none :=
        (getF_eq_none d KEY_AUTHORS).mpr (by rw [h4]; decide)
      have hB : getF (setF d KEY_AUTHORS au) KEY_ABSTRACT = none := by
        rw [getF_setF_ne _ _ _ _ (by decide)]
        exact (getF_eq_none d KEY_ABSTRACT).mpr (by rw [h4]; decide)
      rw [setF_keys _ _ _ hB, setF_keys _ _ _ hA, h4]
      rfl
  cases hsk : rdSkip uskips nskips d with
  | none =>
    rw [rdStep_eq_skip_err uskips nskips site v data d hsk]
    exact ⟨[], by simp, by simp⟩
  | some bl =>
    rcases bl with ⟨b, lgs⟩
    cases b with
    | true =>
      rw [rdStep_eq_skip uskips nskips site v data d lgs hsk]
      exact ⟨[], by simp, by simp⟩
    | false =>
      cases hpn : getF d KEY_PREZ_NAME with
      | none =>
        rw [rdStep_eq_pn_err uskips nskips site v data d lgs hsk hpn]
        exact ⟨[], by simp, by simp⟩
      | some pn =>
        cases hsn : getF d KEY_SYMP_NAME with
        | none =>
          rw [rdStep_eq_sn_err uskips nskips site v data d lgs pn hsk hpn hsn]
          exact ⟨[], by simp, by simp⟩
        | some sn =>
          by_cases hpres :
              data.any (fun r => qEq KEY_PREZ_NAME pn r && qEq KEY_SYMP_NAME sn r) = true
          · rw [rdStep_eq_present uskips nskips site v data d lgs pn sn hsk hpn hsn hpres]
            exact ⟨[], by simp, by simp⟩
          · rw [Bool.not_eq_true] at hpres
            cases hf : rdFetch site d with
            | none =>
              rw [rdStep_eq_fetch_err uskips nskips site v data d lgs pn sn hsk hpn hsn
                hpres hf]
              refine ⟨[setF (setF d KEY_AUTHORS ("N/A")) KEY_ABSTRACT ("N/A")], by simp, ?_⟩
              intro r hr
              rw [List.mem_singleton] at hr
              subst hr
              obtain ⟨ha, hb, hc⟩ := hrow ("N/A") ("N/A")
              exact ⟨ha.trans hpn, hb.trans hsn, hc⟩
            | some p =>
              rcases p with ⟨au, ab⟩
              rw [rdStep_eq_fetch_ok uskips nskips site v data d lgs pn sn au ab hsk hpn
                hsn hpres hf]
              refine ⟨[setF (setF d KEY_AUTHORS au) KEY_ABSTRACT ab], by simp, ?_⟩
              intro r hr
              rw [List.mem_singleton] at hr
              subst hr
              obtain ⟨ha, hb, hc⟩ := hrow au ab
              exact ⟨ha.trans hpn, hb.trans hsn, hc⟩

theorem rdLoop_cons_ok (uskips nskips : List String) (site : Site) (v : Bool)
    (data t1 : List Doc) (l1 : List Log) (d : Doc) (ds : List Doc)
    (h : rdStep uskips nskips site v data d = { tbl := t1, log := l1, ok := true }) :
    rdLoop uskips nskips site v (d :: ds) data =
      { tbl := (rdLoop uskips nskips site v ds t1).tbl
        log := l1 ++ (rdLoop uskips nskips site v ds t1).log
        ok := (rdLoop uskips nskips site v ds t1).ok } := by
  simp [rdLoop, h]

theorem rdLoop_cons_err (uskips nskips : List String) (site : Site) (v : Bool)
    (data t1 : List Doc) (l1 : List Log) (d : Doc) (ds : List Doc)
    (h : rdStep uskips nskips site v data d = { tbl := t1, log := l1, ok := false }) :
    rdLoop uskips nskips site v (d :: ds) data = { tbl := t1, log := l1, ok := false } := by
  simp [rdLoop, h]

theorem rdLoop_mono (uskips nskips : List String) (site : Site) (v : Bool) :
    ∀ (L data : List Doc),
      ∃ ext, (rdLoop uskips nskips site v L data).tbl = data ++ ext := by
  intro L
  induction L with
  | nil => exact fun data => ⟨[], by simp [rdLoop]⟩
  | cons d ds ih =>
    intro data
    rcases hs : rdStep uskips nskips site v data d with ⟨t1, l1, o1⟩
    obtain ⟨e1, he0, -⟩ := rdStep_shape uskips nskips site v data d
    rw [hs] at he0
    have he1 : t1 = data ++ e1 := he0
    cases o1 with
    | true =>
      obtain ⟨e2, he2⟩ := ih t1
      refine ⟨e1 ++ e2, ?_⟩
      rw [rdLoop_cons_ok uskips nskips site v data t1 l1 d ds hs]
      show (rdLoop uskips nskips site v ds t1).tbl = data ++ (e1 ++ e2)
      rw [he2, he1, List.append_assoc]
    | false =>
      rw [rdLoop_cons_err uskips nskips site v data t1 l1 d ds hs]
      exact ⟨e1, he1⟩

theorem rdLoop_keys (uskips nskips : List String) (site : Site) (v : Bool) :
    ∀ (L data : List Doc),
      (∀ e ∈ L, e.map Prod.fst = [KEY_PREZ_NAME, KEY_PREZ_URL, KEY_SYMP_NAME, KEY_SYMP_URL]) →
      ∃ ext, (rdLoop uskips nskips site v L data).tbl = data ++ ext ∧
        ∀ r ∈ ext, r.map Prod.fst = [KEY_PREZ_NAME, KEY_PREZ_URL, KEY_SYMP_NAME,
          KEY_SYMP_URL, KEY_AUTHORS, KEY_ABSTRACT] := by
  intro L
  induction L with
  | nil => exact fun data _ => ⟨[], by simp [rdLoop], by simp⟩
  | cons d ds ih =>
    intro data hwf
    rcases hs : rdStep uskips nskips site v data d with ⟨t1, l1, o1⟩
    obtain ⟨e1, he0, hk1⟩ := rdStep_shape uskips nskips site v data d
    rw [hs] at he0
    have he1 : t1 = data ++ e1 := he0
    have hk1b : ∀ r ∈ e1, r.map Prod.fst = [KEY_PREZ_NAME, KEY_PREZ_URL, KEY_SYMP_NAME,
        KEY_SYMP_URL, KEY_AUTHORS, KEY_ABSTRACT] :=
      fun r hr => (hk1 r hr).2.2 (hwf d (List.mem_cons_self d ds))
    cases o1 with
    | true =>
      obtain ⟨e2, he2, hk2⟩ := ih t1 (fun e he => hwf e (List.mem_cons_of_mem d he))
      refine ⟨e1 ++ e2, ?_, ?_⟩
      · rw [rdLoop_cons_ok uskips nskips site v data t1 l1 d ds hs]
        show (rdLoop uskips nskips site v ds t1).tbl = data ++ (e1 ++ e2)
        rw [he2, he1, List.append_assoc]
      · intro r hr
        rcases List.mem_append.mp hr with h | h
        · exact hk1b r h
        · exact hk2 r h
    | false =>
      rw [rdLoop_cons_err uskips nskips site v data t1 l1 d ds hs]
      exact ⟨e1, he1, hk1b⟩

theorem rdStep_second (uskips nskips : List String) (site : Site) (v : Bool)
    (data d1 : List Doc) (lg1 : List Log) (d : Doc)
    (h : rdStep uskips nskips site v data d = { tbl := d1, log := lg1, ok := true })
    (ext : List Doc) :
    ∃ lg2, rdStep uskips nskips site v (d1 ++ ext) d =
      { tbl := d1 ++ ext, log := lg2, ok := true } := by
  cases hsk : rdSkip uskips nskips d with
  | none =>
    rw [rdStep_eq_skip_err uskips nskips site v data d hsk, PhaseOut.mk.injEq] at h
    simp at h
  | some bl =>
    rcases bl with ⟨b, lgs⟩
    cases b with
    | true =>
      rw [rdStep_eq_skip uskips nskips site v data d lgs hsk, PhaseOut.mk.injEq] at h
      obtain ⟨rfl, -, -⟩ := h
      exact ⟨_, rdStep_eq_skip uskips nskips site v (data ++ ext) d lgs hsk⟩
    | false =>
      cases hpn : getF d KEY_PREZ_NAME with
      | none =>
        rw [rdStep_eq_pn_err uskips nskips site v data d lgs hsk hpn,
          PhaseOut.mk.injEq] at h
        simp at h
      | some pn =>
        cases hsn : getF d KEY_SYMP_NAME with
        | none =>
          rw [rdStep_eq_sn_err uskips nskips site v data d lgs pn hsk hpn hsn,
            PhaseOut.mk.injEq] at h
          simp at h
        | some sn =>
          by_cases hpres :
              data.any (fun r => qEq KEY_PREZ_NAME pn r && qEq KEY_SYMP_NAME sn r) = true
          · rw [rdStep_eq_present uskips nskips site v data d lgs pn sn hsk hpn hsn hpres,
              PhaseOut.mk.injEq] at h
            obtain ⟨rfl, -, -⟩ := h
            have hp2 : (data ++ ext).any
                (fun r => qEq KEY_PREZ_NAME pn r && qEq KEY_SYMP_NAME sn r) = true := by
              rw [List.any_append, hpres, Bool.true_or]
            exact ⟨_, rdStep_eq_present uskips nskips site v (data ++ ext) d lgs pn sn
              hsk hpn hsn hp2⟩
          · rw [Bool.not_eq_true] at hpres
            have hqrow : ∀ au ab : String,
                (qEq KEY_PREZ_NAME pn (setF (setF d KEY_AUTHORS au) KEY_ABSTRACT ab) &&
                  qEq KEY_SYMP_NAME sn (setF (setF d KEY_AUTHORS au) KEY_ABSTRACT ab)) =
                  true := by
              intro au ab
              have h1 : getF (setF (setF d KEY_AUTHORS au) KEY_ABSTRACT ab) KEY_PREZ_NAME =
                  some pn := by
                rw [getF_setF_ne _ _ _ _ (by decide), getF_setF_ne _ _ _ _ (by decide), hpn]
              have h2 : getF (setF (setF d KEY_AUTHORS au) KEY_ABSTRACT ab) KEY_SYMP_NAME =
                  some sn := by
                rw [getF_setF_ne _ _ _ _ (by decide), getF_setF_ne _ _ _ _ (by decide), hsn]
              simp [qEq, h1, h2]
            cases hf : rdFetch site d with
            | none =>
              rw [rdStep_eq_fetch_err uskips nskips site v data d lgs pn sn hsk hpn hsn
                hpres hf, PhaseOut.mk.injEq] at h
              obtain ⟨htbl, -, -⟩ := h
              have hmem : setF (setF d KEY_AUTHORS ("N/A")) KEY_ABSTRACT ("N/A") ∈
                  d1 ++ ext := by
                refine List.mem_append_left _ ?_
                rw [← htbl]
                exact List.mem_append_right _ (List.mem_singleton.mpr rfl)
              have hp2 : (d1 ++ ext).any
                  (fun r => qEq KEY_PREZ_NAME pn r && qEq KEY_SYMP_NAME sn r) = true :=
                List.any_eq_true.mpr ⟨_, hmem, hqrow _ _⟩
              exact ⟨_, rdStep_eq_present uskips nskips site v (d1 ++ ext) d lgs pn sn
                hsk hpn hsn hp2⟩
            | some p =>
              rcases p with ⟨au, ab⟩
              rw [rdStep_eq_fetch_ok uskips nskips site v data d lgs pn sn au ab hsk hpn
                hsn hpres hf, PhaseOut.mk.injEq] at h
              obtain ⟨htbl, -, -⟩ := h
              have hmem : setF (setF d KEY_AUTHORS au) KEY_ABSTRACT ab ∈ d1 ++ ext := by
                refine List.mem_append_left _ ?_
                rw [← htbl]
                exact List.mem_append_right _ (List.mem_singleton.mpr rfl)
              have hp2 : (d1 ++ ext).any
                  (fun r => qEq KEY_PREZ_NAME pn r && qEq KEY_SYMP_NAME sn r) = true :=
                List.any_eq_true.mpr ⟨_, hmem, hqrow _ _⟩
              exact ⟨_, rdStep_eq_present uskips nskips site v (d1 ++ ext) d lgs pn sn
                hsk hpn hsn hp2⟩

theorem rdLoop_idem (uskips nskips : List String) (site : Site) (v : Bool) :
    ∀ (L data q : List Doc) (lg : List Log),
      rdLoop uskips nskips site v L data = { tbl := q, log := lg, ok := true } →
      ∃ lg2, rdLoop uskips nskips site v L q = { tbl := q, log := lg2, ok := true } := by
  intro L
  induction L with
  | nil =>
    intro data q lg h
    simp only [rdLoop, PhaseOut.mk.injEq] at h
    obtain ⟨rfl, -, -⟩ := h
    exact ⟨[], rfl⟩
  | cons d ds ih =>
    intro data q lg h
    rcases hs : rdStep uskips nskips site v data d with ⟨t1, l1, o1⟩
    cases o1 with
    | false =>
      rw [rdLoop_cons_err uskips nskips site v data t1 l1 d ds hs,
        PhaseOut.mk.injEq] at h
      simp at h
    | true =>
      rw [rdLoop_cons_ok uskips nskips site v data t1 l1 d ds hs,
        PhaseOut.mk.injEq] at h
      obtain ⟨htbl, -, hok2⟩ := h
      have hloop : rdLoop uskips nskips site v ds t1 =
          { tbl := q, log := (rdLoop uskips nskips site v ds t1).log, ok := true } := by
        rw [← htbl, ← hok2]
      obtain ⟨lgA, hA⟩ := ih t1 q _ hloop
      obtain ⟨ext2, hext2⟩ := rdLoop_mono uskips nskips site v ds t1
      have hq : q = t1 ++ ext2 := by rw [← htbl, hext2]
      obtain ⟨lgB, hB⟩ := rdStep_second uskips nskips site v data t1 l1 d hs ext2
      rw [← hq] at hB
      refine ⟨lgB ++ lgA, ?_⟩
      rw [rdLoop_cons_ok uskips nskips site v q q lgB d ds hB, hA]

/-- C2: detail retrieval is idempotent on the detail table — if a run of
`retrieve_talk_details` completes without raising and leaves the detail
table in state `q`, then a second run with the same arguments over `q`
also completes and leaves the table exactly at `q`, because every
non-skipped talk-link row now has its `(prez_name, symp_name)` record in
the detail table and is skipped before any fetch or insert. -/
theorem retrieve_talk_details_idempotent (uskips nskips : List String)
    (site : Site) (v : Bool) (prez data q : List Doc) (lg : List Log)
    (h : retrieve_talk_details uskips nskips site v prez data =
      { tbl := q, log := lg, ok := true }) :
    ∃ lg2, retrieve_talk_details uskips nskips site v prez q =
      { tbl := q, log := lg2, ok := true } :=
  rdLoop_idem uskips nskips site v (prez.filter qSearchDot) data q lg h

/-- Closed instance of `retrieve_talk_details_idempotent`: after the
one-talk store has been detailed once (with a sentinel record), a second
run changes nothing. -/
theorem retrieve_talk_details_idempotent_witness :
    ∃ lg2, retrieve_talk_details [] [] failSite true [sampleTalk]
        [[(KEY_SYMP_NAME, "S"), (KEY_PREZ_NAME, "T"),
          (KEY_PREZ_URL, "http://h/t?OpenDocument"),
          (KEY_AUTHORS, "N/A"), (KEY_ABSTRACT, "N/A")]] =
      { tbl := [[(KEY_SYMP_NAME, "S"), (KEY_PREZ_NAME, "T"),
          (KEY_PREZ_URL, "http://h/t?OpenDocument"),
          (KEY_AUTHORS, "N/A"), (KEY_ABSTRACT, "N/A")]],
        log := lg2, ok := true } :=
  retrieve_talk_details_idempotent [] [] failSite true [sampleTalk] []
    [[(KEY_SYMP_NAME, "S"), (KEY_PREZ_NAME, "T"),
      (KEY_PREZ_URL, "http://h/t?OpenDocument"),
      (KEY_AUTHORS, "N/A"), (KEY_ABSTRACT, "N/A")]]
    [Log.processing ("T"), Log.erroredMsg] (by decide)

/-- C1: in the detail phase, a talk-link row that no skip filter excludes
and whose `(prez_name, symp_name)` pair is not yet in the detail table
always yields exactly one inserted record and lets the loop continue
without raising; when the fetch or the extraction fails, the record
carries the `"N/A"` sentinel for both authors and abstract. -/
theorem retrieve_talk_details_sentinel_insert (uskips nskips : List String)
    (site : Site) (v : Bool) (data : List Doc) (d : Doc) (pn sn pu : String)
    (hpn : getF d KEY_PREZ_NAME = some pn)
    (hsn : getF d KEY_SYMP_NAME = some sn)
    (hpu : getF d KEY_PREZ_URL = some pu)
    (hu : ∀ s ∈ uskips, containsSub s.data pu.data = false)
    (hn : ∀ s ∈ nskips, containsSub s.data pn.data = false)
    (hpres : data.any (fun r => qEq KEY_PREZ_NAME pn r && qEq KEY_SYMP_NAME sn r) = false) :
    ∃ r : Doc,
      rdStep uskips nskips site v data d =
        { tbl := data ++ [r]
          log := emit v [Log.processing pn,
            cond (get_prez_data site pu).isSome Log.okMsg Log.erroredMsg]
          ok := true } ∧
      (get_prez_data site pu = none →
        getF r KEY_AUTHORS = some ("N/A") ∧ getF r KEY_ABSTRACT = some ("N/A")) ∧
      (∀ ds : List Doc,
        rdLoop uskips nskips site v (d :: ds) data =
          { tbl := (rdLoop uskips nskips site v ds (data ++ [r])).tbl
            log := emit v [Log.processing pn,
                cond (get_prez_data site pu).isSome Log.okMsg Log.erroredMsg] ++
              (rdLoop uskips nskips site v ds (data ++ [r])).log
            ok := (rdLoop uskips nskips site v ds (data ++ [r])).ok }) := by
  have hsk : rdSkip uskips nskips d = some (false, []) :=
    rdSkip_no_match uskips nskips d pu pn hpu hpn hu hn
  have hfet : rdFetch site d = get_prez_data site pu := by
    unfold rdFetch
    rw [hpu]
  cases hgp : get_prez_data site pu with
  | some p =>
    rcases p with ⟨au, ab⟩
    have hf : rdFetch site d = some (au, ab) := by rw [hfet, hgp]
    have hstep := rdStep_eq_fetch_ok uskips nskips site v data d [] pn sn au ab hsk hpn
      hsn hpres hf
    refine ⟨setF (setF d KEY_AUTHORS au) KEY_ABSTRACT ab, ?_, ?_, ?_⟩
    · rw [hstep]
      simp
    · intro hnone
      simp at hnone
    · intro ds
      rw [rdLoop_cons_ok uskips nskips site v data _ _ d ds hstep]
      simp
  | none =>
    have hf : rdFetch site d = none := by rw [hfet, hgp]
    have hstep := rdStep_eq_fetch_err uskips nskips site v data d [] pn sn hsk hpn hsn
      hpres hf
    refine ⟨setF (setF d KEY_AUTHORS ("N/A")) KEY_ABSTRACT ("N/A"), ?_, ?_, ?_⟩
    · rw [hstep]
      simp
    · intro _
      constructor
      · rw [getF_setF_ne _ _ _ _ (by decide)]
        exact getF_setF_self _ _ _
      · exact getF_setF_self _ _ _
    · intro ds
      rw [rdLoop_cons_ok uskips nskips site v data _ _ d ds hstep]
      simp

/-- Closed instance of `retrieve_talk_details_sentinel_insert` at
`sampleTalk` on the failing site. -/
theorem retrieve_talk_details_sentinel_insert_witness :
    ∃ r : Doc,
      rdStep [] [] failSite true [] sampleTalk =
        { tbl := [] ++ [r]
          log := emit true [Log.processing ("T"),
            cond (get_prez_data failSite ("http://h/t?OpenDocument")).isSome
              Log.okMsg Log.erroredMsg]
          ok := true } ∧
      (get_prez_data failSite ("http://h/t?OpenDocument") = none →
        getF r KEY_AUTHORS = some ("N/A") ∧ getF r KEY_ABSTRACT = some ("N/A")) ∧
      (∀ ds : List Doc,
        rdLoop [] [] failSite true (sampleTalk :: ds) [] =
          { tbl := (rdLoop [] [] failSite true ds ([] ++ [r])).tbl
            log := emit true [Log.processing ("T"),
                cond (get_prez_data failSite ("http://h/t?OpenDocument")).isSome
                  Log.okMsg Log.erroredMsg] ++
              (rdLoop [] [] failSite true ds ([] ++ [r])).log
            ok := (rdLoop [] [] failSite true ds ([] ++ [r])).ok }) :=
  retrieve_talk_details_sentinel_insert [] [] failSite true [] sampleTalk ("T") ("S")
    ("http://h/t?OpenDocument") (by decide) (by decide) (by decide) (by simp) (by simp)
    (by decide)

theorem rdLoop_drop_skipped (uskips nskips : List String) (site : Site) (v : Bool)
    (d : Doc) (lgs : List Log)
    (hsk : rdSkip uskips nskips d = some (true, lgs)) :
    ∀ (F1 F2 data : List Doc),
      (rdLoop uskips nskips site v (F1 ++ d :: F2) data).tbl =
          (rdLoop uskips nskips site v (F1 ++ F2) data).tbl ∧
        (rdLoop uskips nskips site v (F1 ++ d :: F2) data).ok =
          (rdLoop uskips nskips site v (F1 ++ F2) data).ok := by
  intro F1
  induction F1 with
  | nil =>
    intro F2 data
    have hstep := rdStep_eq_skip uskips nskips site v data d lgs hsk
    rw [List.nil_append, List.nil_append,
      rdLoop_cons_ok uskips nskips site v data data (emit v lgs) d F2 hstep]
    exact ⟨rfl, rfl⟩
  | cons e F1x ih =>
    intro F2 data
    rcases hs : rdStep uskips nskips site v data e with ⟨t1, l1, o1⟩
    cases o1 with
    | true =>
      rw [List.cons_append, List.cons_append,
        rdLoop_cons_ok uskips nskips site v data t1 l1 e (F1x ++ d :: F2) hs,
        rdLoop_cons_ok uskips nskips site v data t1 l1 e (F1x ++ F2) hs]
      exact ih F2 t1
    | false =>
      rw [List.cons_append, List.cons_append,
        rdLoop_cons_err uskips nskips site v data t1 l1 e (F1x ++ d :: F2) hs,
        rdLoop_cons_err uskips nskips site v data t1 l1 e (F1x ++ F2) hs]
      exact ⟨rfl, rfl⟩

/-- C4: the two skip-filter sets act as a logical OR and exclusion is total
— a talk-link row whose URL contains a URL-skip substring, or whose name
contains a name-skip substring (either alone suffices), contributes no
record to the detail table: its step inserts nothing and completes, and a
full run over a table containing the row leaves the detail table (and the
completion outcome) exactly as the run without the row. -/
theorem skip_filters_exclude (uskips nskips : List String) (site : Site)
    (v : Bool) (d : Doc) (pn pu : String)
    (hpn : getF d KEY_PREZ_NAME = some pn)
    (hpu : getF d KEY_PREZ_URL = some pu)
    (hmatch : (∃ s ∈ uskips, containsSub s.data pu.data = true) ∨
      (∃ s ∈ nskips, containsSub s.data pn.data = true))
    (L1 L2 data : List Doc) :
    (rdStep uskips nskips site v data d).tbl = data ∧
      (rdStep uskips nskips site v data d).ok = true ∧
      (retrieve_talk_details uskips nskips site v (L1 ++ d :: L2) data).tbl =
        (retrieve_talk_details uskips nskips site v (L1 ++ L2) data).tbl ∧
      (retrieve_talk_details uskips nskips site v (L1 ++ d :: L2) data).ok =
        (retrieve_talk_details uskips nskips site v (L1 ++ L2) data).ok := by
  obtain ⟨lgs, hsk⟩ := rdSkip_match uskips nskips d pu pn hpu hpn hmatch
  have hstep := rdStep_eq_skip uskips nskips site v data d lgs hsk
  have hrun : ((rdLoop uskips nskips site v ((L1 ++ d :: L2).filter qSearchDot) data).tbl =
        (rdLoop uskips nskips site v ((L1 ++ L2).filter qSearchDot) data).tbl) ∧
      ((rdLoop uskips nskips site v ((L1 ++ d :: L2).filter qSearchDot) data).ok =
        (rdLoop uskips nskips site v ((L1 ++ L2).filter qSearchDot) data).ok) := by
    rw [List.filter_append, List.filter_append, List.filter_cons]
    by_cases hq : qSearchDot d = true
    · rw [if_pos hq]
      exact rdLoop_drop_skipped uskips nskips site v d lgs hsk
        (L1.filter qSearchDot) (L2.filter qSearchDot) data
    · rw [if_neg hq]
      exact ⟨rfl, rfl⟩
  exact ⟨by rw [hstep], by rw [hstep], hrun.1, hrun.2⟩

/-- Closed instance of `skip_filters_exclude`: a URL-skip match alone (the
name-skip list empty) keeps `sampleTalk` out of the detail table. -/
theorem skip_filters_exclude_witness :
    (rdStep [("h/t")] [] failSite true [] sampleTalk).tbl = [] ∧
      (rdStep [("h/t")] [] failSite true [] sampleTalk).ok = true ∧
      (retrieve_talk_details [("h/t")] [] failSite true ([] ++ sampleTalk :: []) []).tbl =
        (retrieve_talk_details [("h/t")] [] failSite true ([] ++ []) []).tbl ∧
      (retrieve_talk_details [("h/t")] [] failSite true ([] ++ sampleTalk :: []) []).ok =
        (retrieve_talk_details [("h/t")] [] failSite true ([] ++ []) []).ok :=
  skip_filters_exclude [("h/t")] [] failSite true sampleTalk ("T")
    ("http://h/t?OpenDocument") (by decide) (by decide)
    (Or.inl ⟨("h/t"), by decide, by decide⟩) [] [] []

/-- C7, amended: every record the system inserts carries exactly the code's
key set, in insertion order — `{symp_name, symp_url}` for symposium rows,
`{prez_name, prez_url, symp_name, symp_url}` for talk-link rows, and
those four plus `{prez_authors, prez_abstract}` for detail rows built
from well-formed talk-link rows. -/
theorem record_keys (site : Site) (v : Bool) (url : String)
    (skips uskips nskips : List String) (sympTbl symp prez2 prez data : List Doc)
    (hwf : ∀ e ∈ prez,
      e.map Prod.fst = [KEY_PREZ_NAME, KEY_PREZ_URL, KEY_SYMP_NAME, KEY_SYMP_URL]) :
    (∀ r ∈ (scrape_symposia site v url sympTbl).tbl,
        r ∈ sympTbl ∨ r.map Prod.fst = [KEY_SYMP_NAME, KEY_SYMP_URL]) ∧
      (∀ r ∈ (retrieve_talks skips site v symp prez2).tbl,
        r ∈ prez2 ∨
          r.map Prod.fst = [KEY_PREZ_NAME, KEY_PREZ_URL, KEY_SYMP_NAME, KEY_SYMP_URL]) ∧
      (∀ r ∈ (retrieve_talk_details uskips nskips site v prez data).tbl,
        r ∈ data ∨
          r.map Prod.fst = [KEY_PREZ_NAME, KEY_PREZ_URL, KEY_SYMP_NAME, KEY_SYMP_URL,
            KEY_AUTHORS, KEY_ABSTRACT]) := by
  refine ⟨?_, ?_, ?_⟩
  · intro r hr
    unfold scrape_symposia at hr
    cases hroot : get_url_root url with
    | none =>
      rw [hroot] at hr
      exact Or.inl hr
    | some root =>
      rw [hroot] at hr
      cases hanch : get_symposia_anchors site url with
      | none =>
        rw [hanch] at hr
        exact Or.inl hr
      | some as =>
        rw [hanch] at hr
        have hr2 : r ∈ sympTbl ++ as.map
            (fun a => [(KEY_SYMP_NAME, a.text), (KEY_SYMP_URL, root ++ a.href)]) := hr
        rcases List.mem_append.mp hr2 with h | h
        · exact Or.inl h
        · right
          obtain ⟨a, -, rfl⟩ := List.mem_map.mp h
          simp
  · intro r hr
    obtain ⟨ext, he, hk⟩ := rtLoop_shape skips site v (symp.filter qSearchDot) prez2
    unfold retrieve_talks at hr
    rw [he] at hr
    rcases List.mem_append.mp hr with h | h
    · exact Or.inl h
    · exact Or.inr (hk r h)
  · intro r hr
    obtain ⟨ext, he, hk⟩ := rdLoop_keys uskips nskips site v (prez.filter qSearchDot)
      data (fun e he => hwf e (List.mem_of_mem_filter he))
    unfold retrieve_talk_details at hr
    rw [he] at hr
    rcases List.mem_append.mp hr with h | h
    · exact Or.inl h
    · exact Or.inr (hk r h)

/-- Closed instance of `record_keys` at the one-talk store. -/
theorem record_keys_witness :
    (∀ r ∈ (scrape_symposia oneTalkSite true ("http://h/s?x") []).tbl,
        r ∈ ([] : List Doc) ∨ r.map Prod.fst = [KEY_SYMP_NAME, KEY_SYMP_URL]) ∧
      (∀ r ∈ (retrieve_talks [] oneTalkSite true [sampleSymp] []).tbl,
        r ∈ ([] : List Doc) ∨
          r.map Prod.fst = [KEY_PREZ_NAME, KEY_PREZ_URL, KEY_SYMP_NAME, KEY_SYMP_URL]) ∧
      (∀ r ∈ (retrieve_talk_details [] [] oneTalkSite true [] []).tbl,
        r ∈ ([] : List Doc) ∨
          r.map Prod.fst = [KEY_PREZ_NAME, KEY_PREZ_URL, KEY_SYMP_NAME, KEY_SYMP_URL,
            KEY_AUTHORS, KEY_ABSTRACT]) :=
  record_keys oneTalkSite true ("http://h/s?x") [] [] [] [] [sampleSymp] [] [] []
    (by simp)

theorem takeWhile_append_stop (host r : List Char) (hh : ∀ c ∈ host, c ≠ '/') :
    (host ++ '/' :: r).takeWhile (fun c => decide (c ≠ '/')) = host := by
  induction host with
  | nil => simp [List.takeWhile]
  | cons a t ih =>
    have ha : a ≠ '/' := hh a (List.mem_cons_self a t)
    simp only [List.cons_append, List.takeWhile_cons, decide_eq_true_eq]
    rw [if_pos ha, ih (fun c hc => hh c (List.mem_cons_of_mem a hc))]

theorem dropWhile_append_stop (host r : List Char) (hh : ∀ c ∈ host, c ≠ '/') :
    (host ++ '/' :: r).dropWhile (fun c => decide (c ≠ '/')) = '/' :: r := by
  induction host with
  | nil => simp [List.dropWhile]
  | cons a t ih =>
    have ha : a ≠ '/' := hh a (List.mem_cons_self a t)
    simp only [List.cons_append, List.dropWhile_cons, decide_eq_true_eq]
    rw [if_pos ha, ih (fun c hc => hh c (List.mem_cons_of_mem a hc))]

theorem matchTail_run (pre host r : List Char) (hne : host ≠ [])
    (hh : ∀ c ∈ host, c ≠ '/') :
    matchTail pre (':' :: '/' :: '/' :: (host ++ '/' :: r)) =
      some (pre ++ ':' :: '/' :: '/' :: host) := by
  have hemp : host.isEmpty = false := by
    cases host with
    | nil => exact absurd rfl hne
    | cons _ _ => rfl
  simp only [matchTail, dropWhile_append_stop host r hh, takeWhile_append_stop host r hh,
    hemp]
  simp

theorem matchTail_some_shape (pre cs g : List Char) (h : matchTail pre cs = some g) :
    ∃ host tail, cs = ':' :: '/' :: '/' :: (host ++ '/' :: tail) ∧ host ≠ [] ∧
      (∀ c ∈ host, c ≠ '/') ∧ g = pre ++ ':' :: '/' :: '/' :: host := by
  unfold matchTail at h
  split at h
  · rename_i rest
    split at h
    · rename_i tail2 heqd
      by_cases hemp : (rest.takeWhile (fun c => decide (c ≠ '/'))).isEmpty = true
      · rw [if_pos hemp] at h
        simp at h
      · rw [if_neg hemp] at h
        rw [Option.some.injEq] at h
        refine ⟨rest.takeWhile (fun c => decide (c ≠ '/')), tail2, ?_, ?_, ?_, h.symm⟩
        · have := List.takeWhile_append_dropWhile
            (p := fun c => decide (c ≠ '/')) (l := rest)
          rw [heqd] at this
          rw [this]
        · intro hnil
          rw [hnil] at hemp
          exact hemp rfl
        · intro c hc
          have := List.mem_takeWhile_imp hc
          simpa using this
    · simp at h
  · simp at h

theorem map_toLower_four (sch : List Char)
    (h : sch.map Char.toLower = ['h', 't', 't', 'p']) :
    ∃ a b c d, sch = [a, b, c, d] ∧ a.toLower = 'h' ∧ b.toLower = 't' ∧
      c.toLower = 't' ∧ d.toLower = 'p' := by
  cases sch with
  | nil => simp at h
  | cons a s1 =>
    cases s1 with
    | nil => simp at h
    | cons b s2 =>
      cases s2 with
      | nil => simp at h
      | cons c s3 =>
        cases s3 with
        | nil => simp at h
        | cons d s4 =>
          cases s4 with
          | nil =>
            simp only [List.map_cons, List.map_nil, List.cons.injEq, and_true] at h
            exact ⟨a, b, c, d, rfl, h.1, h.2.1, h.2.2.1, h.2.2.2⟩
          | cons e s5 => simp at h

theorem map_toLower_five (sch : List Char)
    (h : sch.map Char.toLower = ['h', 't', 't', 'p', 's']) :
    ∃ a b c d e, sch = [a, b, c, d, e] ∧ a.toLower = 'h' ∧ b.toLower = 't' ∧
      c.toLower = 't' ∧ d.toLower = 'p' ∧ e.toLower = 's' := by
  cases sch with
  | nil => simp at h
  | cons a s1 =>
    cases s1 with
    | nil => simp at h
    | cons b s2 =>
      cases s2 with
      | nil => simp at h
      | cons c s3 =>
        cases s3 with
        | nil => simp at h
        | cons d s4 =>
          cases s4 with
          | nil => simp at h
          | cons e s5 =>
            cases s5 with
            | nil =>
              simp only [List.map_cons, List.map_nil, List.cons.injEq, and_true] at h
              exact ⟨a, b, c, d, e, rfl, h.1, h.2.1, h.2.2.1, h.2.2.2.1, h.2.2.2.2⟩
            | cons f s6 => simp at h

theorem get_url_root_shape_eval (sch host rest : List Char)
    (hsch : sch.map Char.toLower = ['h', 't', 't', 'p'] ∨
      sch.map Char.toLower = ['h', 't', 't', 'p', 's'])
    (hne : host ≠ []) (hh : ∀ c ∈ host, c ≠ '/') :
    get_url_root { data := sch ++ ':' :: '/' :: '/' :: (host ++ '/' :: rest) } =
      some { data := sch ++ ':' :: '/' :: '/' :: host } := by
  rcases hsch with h4 | h5
  · obtain ⟨a, b, c, d, rfl, ha, hb, hc, hd⟩ := map_toLower_four sch h4
    unfold get_url_root
    simp only [List.cons_append, List.nil_append, ha, hb, hc, hd, and_self, if_true]
    rw [if_neg (by decide), matchTail_run [a, b, c, d] host rest hne hh]
    simp
  · obtain ⟨a, b, c, d, e, rfl, ha, hb, hc, hd, he⟩ := map_toLower_five sch h5
    unfold get_url_root
    simp only [List.cons_append, List.nil_append, ha, hb, hc, hd, and_self, if_true]
    rw [if_pos he, matchTail_run [a, b, c, d, e] host rest hne hh]
    simp

theorem get_url_root_some_shape (url : String) (r : String)
    (h : get_url_root url = some r) : specShape url := by
  rcases url with ⟨data⟩
  unfold get_url_root at h
  cases data with
  | nil => simp at h
  | cons a d1 =>
    cases d1 with
    | nil => simp at h
    | cons b d2 =>
      cases d2 with
      | nil => simp at h
      | cons c d3 =>
        cases d3 with
        | nil => simp at h
        | cons d d4 =>
          simp only [] at h
          by_cases hcond : a.toLower = 'h' ∧ b.toLower = 't' ∧ c.toLower = 't' ∧
            d.toLower = 'p'
          · rw [if_pos hcond] at h
            obtain ⟨ha, hb, hc, hd⟩ := hcond
            cases d4 with
            | nil => simp at h
            | cons e rest2 =>
              by_cases he : e.toLower = 's'
              · simp only [if_pos he] at h
                obtain ⟨g, hg, -⟩ := Option.map_eq_some'.mp h
                obtain ⟨host, tail, hcs, hne, hh, -⟩ :=
                  matchTail_some_shape [a, b, c, d, e] rest2 g hg
                refine ⟨[a, b, c, d, e], host, tail, ?_, Or.inr (by simp [ha, hb, hc, hd, he]),
                  hne, hh⟩
                simp [hcs]
              · simp only [if_neg he] at h
                obtain ⟨g, hg, -⟩ := Option.map_eq_some'.mp h
                obtain ⟨host, tail, hcs, hne, hh, -⟩ :=
                  matchTail_some_shape [a, b, c, d] (e :: rest2) g hg
                refine ⟨[a, b, c, d], host, tail, ?_, Or.inl (by simp [ha, hb, hc, hd]),
                  hne, hh⟩
                simp [hcs]
          · rw [if_neg hcond] at h
            simp at h

/-- C6: `get_url_root` is a pure function returning, on every URL of the
`scheme://host/rest` shape with scheme `http` or `https` (up to letter
case), the scheme+host prefix up to the first path separator after the
host; on every input not of that shape it raises the dedicated
root-extraction error (modelled as `none`); in particular the two
documented examples hold. -/
theorem get_url_root_spec :
    (∀ sch host rest : List Char,
      (sch.map Char.toLower = ("http" : String).data ∨
        sch.map Char.toLower = ("https" : String).data) →
      host ≠ [] → (∀ c ∈ host, c ≠ '/') →
      get_url_root { data := sch ++ ':' :: '/' :: '/' :: (host ++ '/' :: rest) } =
        some { data := sch ++ ':' :: '/' :: '/' :: host }) ∧
      (∀ url : String, ¬specShape url → get_url_root url = none) ∧
      get_url_root ("https://example.org/path?x=1") = some ("https://example.org") ∧
      get_url_root ("not-a-url") = none := by
  refine ⟨?_, ?_, by decide, by decide⟩
  · intro sch host rest hsch hne hh
    exact get_url_root_shape_eval sch host rest hsch hne hh
  · intro url hn
    cases hu : get_url_root url with
    | none => rfl
    | some r => exact absurd (get_url_root_some_shape url r hu) hn

/-- Closed instance of `get_url_root_spec` at a concrete shaped URL. -/
theorem get_url_root_spec_witness :
    get_url_root { data := ("HTTPS" : String).data ++ ':' :: '/' :: '/' ::
        (("ex.org" : String).data ++ '/' :: ("p" : String).data) } =
      some { data := ("HTTPS" : String).data ++ ':' :: '/' :: '/' ::
        ("ex.org" : String).data } :=
  get_url_root_spec.1 (("HTTPS" : String).data) (("ex.org" : String).data)
    (("p" : String).data) (Or.inr (by decide)) (by decide) (by decide)

end Mst
